import Mathlib

/-
Verification of the turbulence/wavefront-sensor simulator
(`src/hardware_simulator.py` of the recon-simu repository).

The embedding models numpy arrays of real numbers as Lean matrices and
lists over `ℚ` (exact arithmetic; floating-point rounding is out of scope),
pseudo-random number generation as an explicit standard-normal draw stream
`ℕ → ℚ` (the seeded `np.random.default_rng` stream: a fixed seed fixes the
whole stream), and the wall-clock benchmark that selects the state-matrix
multiplication strategy as an arbitrary `Bool` (its outcome is timing
dependent; all theorems hold for both outcomes).  Where numpy produces a
non-finite value (division by zero flux in the centroider) the embedding
returns `none`.
-/

open Matrix

namespace ReconSimu

/-! ## StateMatrix (`PhaseScreen.StateMatrix`, lines 31-90)

The constructor stores `ML = Σyx · Fxx⁻¹`, `LT = (Fxx⁻¹)ᵀ` and always sets
the dense matrix `A = ML · LT` (line 39), so `A` is modelled as a derived
field.  `dot` is whichever of `dot_classic` / `dot_factored` was selected by
the wall-clock benchmark `test_speed` (lines 52-58); the selection is
modelled by a `Bool` parameter. -/

structure StateMatrix (n k : ℕ) where
  ML : Matrix (Fin n) (Fin k) ℚ
  LT : Matrix (Fin k) (Fin n) ℚ

/-- Dense state matrix `self.A = np.einsum("ij,jk->ik", self.ML, self.LT)`
(line 39). -/
def StateMatrix.A {n k : ℕ} (S : StateMatrix n k) : Matrix (Fin n) (Fin n) ℚ :=
  S.ML * S.LT

/-- `StateMatrix.__init__` (lines 36-38): `ML = cov_yx · inv_factor_xx`,
`LT = inv_factor_xxᵀ`. -/
def StateMatrix.build {n k : ℕ} (cov_yx : Matrix (Fin n) (Fin n) ℚ)
    (inv_factor_xx : Matrix (Fin n) (Fin k) ℚ) : StateMatrix n k :=
  ⟨cov_yx * inv_factor_xx, inv_factor_xxᵀ⟩

/-- `dot_classic` (lines 60-63): one multiply by the dense matrix `A`. -/
def StateMatrix.dot_classic {n k : ℕ} (S : StateMatrix n k) (x : Fin n → ℚ) :
    Fin n → ℚ :=
  S.A.mulVec x

/-- `dot_factored` (lines 65-71): multiply by `LT`, then by `ML`. -/
def StateMatrix.dot_factored {n k : ℕ} (S : StateMatrix n k) (x : Fin n → ℚ) :
    Fin n → ℚ :=
  S.ML.mulVec (S.LT.mulVec x)

/-- The bound method `self.dot` after construction: the benchmark outcome
(lines 52-58) is the `useFactored` flag. -/
def StateMatrix.dot {n k : ℕ} (S : StateMatrix n k) (useFactored : Bool)
    (x : Fin n → ℚ) : Fin n → ℚ :=
  if useFactored then S.dot_factored x else S.dot_classic x

/-- Batched `dot_classic`: the einsum `"ij,j...->i..."` applied to a matrix
argument is the matrix product `A · X`. -/
def StateMatrix.dot_classic_mat {n k m : ℕ} (S : StateMatrix n k)
    (X : Matrix (Fin n) (Fin m) ℚ) : Matrix (Fin n) (Fin m) ℚ :=
  S.A * X

/-- Batched `dot_factored`: the einsum `"ij,jk,k...->i..."` applied to a
matrix argument is `ML · (LT · X)`. -/
def StateMatrix.dot_factored_mat {n k m : ℕ} (S : StateMatrix n k)
    (X : Matrix (Fin n) (Fin m) ℚ) : Matrix (Fin n) (Fin m) ℚ :=
  S.ML * (S.LT * X)

/-- Batched `self.dot` under the selected strategy. -/
def StateMatrix.dot_mat {n k m : ℕ} (S : StateMatrix n k) (useFactored : Bool)
    (X : Matrix (Fin n) (Fin m) ℚ) : Matrix (Fin n) (Fin m) ℚ :=
  if useFactored then S.dot_factored_mat X else S.dot_classic_mat X

/-- Innovation covariance as computed on line 116:
`sigma_vv = sigma_xx - state_matrix.dot(state_matrix.dot(sigma_xx).T).T`. -/
def sigma_vv {n k : ℕ} (S : StateMatrix n k) (useFactored : Bool)
    (sigma_xx : Matrix (Fin n) (Fin n) ℚ) : Matrix (Fin n) (Fin n) ℚ :=
  sigma_xx - (S.dot_mat useFactored ((S.dot_mat useFactored sigma_xx)ᵀ))ᵀ

/-! ## Eigenvalue selection in `_factorh` (lines 128-138)

`np.linalg.eigh` is an external routine; its output (the eigenvalue list,
which numpy returns in ascending order, plus eigenvectors) is the input of
the model.  The repository code then selects the retained eigenvalues:
with `n_modes is None` it keeps `vals > thresh` (line 131), otherwise it
keeps `vals >= vals[vals.argsort()[-n_modes]]` (line 133), i.e. everything
at least as large as the `n_modes`-th largest value; for `n_modes = 0`
Python's `[-0]` indexing reads `argsort()[0]`, the index of the smallest
value.  Line 136 then takes `vals**0.5` over exactly the retained values,
with no clamping and no error path.  The model is stated for
`n_modes ≤ len(vals)`; larger counts raise `IndexError` in Python and are
outside every claim considered here. -/

/-- The Python cutoff `vals[vals.argsort()[-n_modes]]`: the `m`-th largest
value for `1 ≤ m ≤ len(vals)`, and the smallest value for `m = 0`. -/
def factorhCutoff (m : ℕ) (vals : List ℚ) : ℚ :=
  let sorted := vals.insertionSort (fun a b => a ≤ b)
  sorted.getD (if m = 0 then 0 else sorted.length - m) 0

/-- The eigenvalues retained by `_factorh` (the `vals[valid]` of line 135);
line 136 square-roots exactly this list to scale the factor's columns. -/
def factorhRetained (thresh : ℚ) (n_modes : Option ℕ) (vals : List ℚ) :
    List ℚ :=
  match n_modes with
  | none => vals.filter (fun v => thresh < v)
  | some m => vals.filter (fun v => factorhCutoff m vals ≤ v)

/-! ## PhaseScreen (lines 12-148)

The covariance kernel (`aocov.phase_covariance_xyxy`) and `np.linalg.eigh`
are external; the construction is therefore modelled from the point where
the factors `factor_xx`, `inv_factor_xx`, `factor_vv` and the state matrix
have been produced.  The seeded generator is the stream `rng : ℕ → ℚ` with
a cursor `pos`: `rng.normal(size=d)` returns `rng pos, …, rng (pos+d-1)`
and advances the cursor by `d`. -/

/-- A standard-normal draw of dimension `d` taken at cursor `pos` of the
seeded stream. -/
def drawNormal (rng : ℕ → ℚ) (pos : ℕ) (d : ℕ) : Fin d → ℚ :=
  fun i => rng (pos + i.val)

/-- PhaseScreen after construction: `w` is the pupil grid width, `n` the
number of active pupil points, `j` the retained self-covariance mode count
(columns of `factor_xx`), `k` the retained innovation mode count (columns
of `factor_vv`). -/
structure PhaseScreen (w n j k : ℕ) where
  pupil : Matrix (Fin w) (Fin w) Bool
  r0 : ℚ
  L0 : ℚ
  diam : ℚ
  laminar : ℚ
  wind : ℚ × ℚ
  ittime : ℚ
  pixsize : ℚ
  thresh : ℚ
  xx_max : Option ℕ
  vv_max : Option ℕ
  factor_xx : Matrix (Fin n) (Fin j) ℚ
  factor_vv : Matrix (Fin n) (Fin k) ℚ
  state_matrix : StateMatrix n j
  useFactored : Bool
  seed : ℤ
  rng : ℕ → ℚ
  pos : ℕ
  x : Fin n → ℚ

/-- End of `PhaseScreen.__init__` (lines 94-119): the initial state is
`x = factor_xx @ rng.normal(size=factor_xx.shape[1])` (line 119), the first
`j` draws of the fresh seeded stream. -/
def PhaseScreen.init {w n j k : ℕ} (pupil : Matrix (Fin w) (Fin w) Bool)
    (r0 L0 diam laminar : ℚ) (wind : ℚ × ℚ) (ittime thresh : ℚ)
    (xx_max vv_max : Option ℕ) (seed : ℤ)
    (factor_xx : Matrix (Fin n) (Fin j) ℚ)
    (factor_vv : Matrix (Fin n) (Fin k) ℚ)
    (state_matrix : StateMatrix n j) (useFactored : Bool) (rng : ℕ → ℚ) :
    PhaseScreen w n j k :=
  { pupil := pupil, r0 := r0, L0 := L0, diam := diam, laminar := laminar
    wind := wind, ittime := ittime, pixsize := diam / (w : ℚ)
    thresh := thresh, xx_max := xx_max, vv_max := vv_max
    factor_xx := factor_xx, factor_vv := factor_vv
    state_matrix := state_matrix, useFactored := useFactored, seed := seed
    rng := rng, pos := j
    x := factor_xx.mulVec (drawNormal rng 0 j) }

/-- `PhaseScreen.step` (lines 140-142):
`v = rng.normal(size=factor_vv.shape[1])`;
`x = state_matrix.dot(x) + factor_vv @ v`.  The draw consumes `k` values of
the stream (cursor advances by `k`); no other field is touched. -/
def PhaseScreen.step {w n j k : ℕ} (s : PhaseScreen w n j k) :
    PhaseScreen w n j k :=
  { s with
    x := s.state_matrix.dot s.useFactored s.x
          + s.factor_vv.mulVec (drawNormal s.rng s.pos k)
    pos := s.pos + k }

/-- `step()` iterated `m` times, as in the main loop (line 331). -/
def PhaseScreen.stepN {w n j k : ℕ} : ℕ → PhaseScreen w n j k → PhaseScreen w n j k
  | 0, s => s
  | m + 1, s => (PhaseScreen.stepN m s).step

/-! ## ClassicCog (lines 236-283)

Images are flattened row-major lists of `npix²` pixel intensities (the code
reshapes each image to length `npix*npix` before the einsum, line 278).
`calibrate` (lines 245-254) builds `xy_mat` from
`x_span = arange(npix) - npix/2 + 0.5` with `meshgrid(..., indexing="xy")`,
so flattened pixel `q` has x-coordinate `x_span[q % npix]` and y-coordinate
`x_span[q / npix]`, and `r_mat = np.ones(...)`. -/

/-- Centred pixel coordinate `x_span[t] = t - npix/2 + 0.5`. -/
def xspan (npix t : ℕ) : ℚ :=
  (t : ℚ) - (npix : ℚ) / 2 + 1 / 2

/-- x-coordinate of flattened pixel `q` (from `xx.flatten()`). -/
def xCoord (npix q : ℕ) : ℚ :=
  xspan npix (q % npix)

/-- y-coordinate of flattened pixel `q` (from `yy.flatten()`). -/
def yCoord (npix q : ℕ) : ℚ :=
  xspan npix (q / npix)

/-- The calibrated weight matrix `r_mat = np.ones(...)` (line 253), one
entry per (axis, pixel) pair. -/
def rMat (_axis _q : ℕ) : ℚ := 1

/-- Thresholding step of `cog` (lines 272-274): when a threshold is set,
subtract it and set negative residues to zero; `thresh=None` skips the
branch entirely. -/
def applyThresh (thresh : Option ℚ) (img : List ℚ) : List ℚ :=
  match thresh with
  | none => img
  | some t => img.map (fun p => if p - t < 0 then 0 else p - t)

/-- The einsum numerator `"jk,ik,jk->ij"` for one image and one axis
(lines 275-281): `Σ_q r_mat[axis,q] · I[q] · xy_mat[axis,q]`. -/
def cogNum (axis : ℕ) (coord : ℕ → ℚ) (img : List ℚ) : ℚ :=
  (img.enum.map (fun p => rMat axis p.1 * p.2 * coord p.1)).sum

/-- The plain intensity-weighted average position on one axis (the ordinary
centre of gravity, with no `r_mat` factor). -/
def plainCentroid (coord : ℕ → ℚ) (img : List ℚ) : ℚ :=
  (img.enum.map (fun p => p.2 * coord p.1)).sum / img.sum

/-- `cog` applied to one batch entry: threshold, numerator einsum,
denominator `np.sum` (line 282), and the division `num / den` (line 283).
A zero denominator makes numpy produce a non-finite float (NaN for `0/0`,
±inf otherwise) without raising; that outcome is modelled as `none`. -/
def cogOne (npix : ℕ) (thresh : Option ℚ) (img : List ℚ) : Option (ℚ × ℚ) :=
  let img2 := applyThresh thresh img
  let den := img2.sum
  if den = 0 then none
  else some (cogNum 0 (xCoord npix) img2 / den, cogNum 1 (yCoord npix) img2 / den)

/-- The centroider configuration: `npix` and the background threshold,
whose pydantic default is `0.0` (line 241). -/
structure ClassicCog where
  npix : ℕ
  thresh : Option ℚ := some 0

/-- `cog` on a 3-dimensional batch: all numpy operations of lines 272-283
act elementwise per batch entry. -/
def ClassicCog.cogBatch (c : ClassicCog) (batch : List (List ℚ)) :
    List (Option (ℚ × ℚ)) :=
  batch.map (cogOne c.npix c.thresh)

/-- Argument of `cog`: either a single 2-dimensional `npix×npix` image or a
batch of them (the docstring of lines 266-269). -/
def CogInput : Type := List ℚ ⊕ List (List ℚ)

/-- `ClassicCog.cog` (lines 266-283): a 2-dimensional input is promoted to
a batch of one by `intensity[None,...]` (lines 270-271), then the batch is
centroided. -/
def ClassicCog.cog (c : ClassicCog) : CogInput → List (Option (ℚ × ℚ))
  | Sum.inl img => c.cogBatch [img]
  | Sum.inr batch => c.cogBatch batch

/-! ## SHWFS (lines 151-233)

Modelled at the configuration of the main program (lines 286-307): pupil
width 64, `nsubx = 32`, hence `subwidth = 2`, and `fovx = 8`.  The cached
kernel `dft2` is built in `__init__` from `np.fft` routines (external) and
is a fixed `(fovx², subwidth²)` complex matrix; it enters the model as the
sensor's stored field.  `measure` (lines 195-221) multiplies the phase
exponential not by the sensor's own `pupil` field but by the bare name
`pupil`, which resolves to the module-level global created in the
`__main__` block (line 290) — importing the module and calling `measure`
raises `NameError`.  The global is modelled by the constant `mainPupil`. -/

/-- The module-global `pupil = aotools.circle(32, 64)` of line 290.  The
generator is external ("a boolean circular aperture of a given pixel
width"); the exact entries never matter below, only that `measure` reads
this constant instead of the sensor's own field. -/
def mainPupil : Matrix (Fin 64) (Fin 64) Bool :=
  Matrix.of fun i j =>
    decide ((2 * (i.val : ℤ) - 63) ^ 2 + (2 * (j.val : ℤ) - 63) ^ 2 ≤ 63 ^ 2)

/-- Complex amplitude of line 203-204, with the global-`pupil` mask:
`camp = pupil.astype(complex) * exp(1j*phi*2*pi/self.wavelength)`. -/
noncomputable def campField (wavelength : ℚ)
    (phi : Matrix (Fin 64) (Fin 64) ℚ) : Fin 64 → Fin 64 → ℂ :=
  fun r c =>
    (if mainPupil r c then 1 else 0)
      * Complex.exp (Complex.I * ((((phi r c : ℝ) * 2 * Real.pi / (wavelength : ℝ)) : ℝ) : ℂ))

/-- The reshape/swapaxes of lines 208-210: subaperture `(i, j)`, flattened
inner pixel `q` (with `q = 2a + b` for inner offsets `(a, b)`) reads grid
point `(2i + a, 2j + b)`. -/
noncomputable def campBatched (wavelength : ℚ)
    (phi : Matrix (Fin 64) (Fin 64) ℚ) :
    Fin 32 → Fin 32 → Fin 4 → ℂ :=
  fun i j q =>
    campField wavelength phi
      ⟨2 * i.val + q.val / 2, by have h1 := i.isLt; have h2 := q.isLt; omega⟩
      ⟨2 * j.val + q.val % 2, by have h1 := j.isLt; have h2 := Nat.mod_lt q.val (show 0 < 2 by decide); omega⟩

/-- Lines 212-214: the batched DFT contraction
`im = einsum("ijq,pq->ijp", camp, dft2)` followed by `abs(im)**2`. -/
noncomputable def imIntensity (dft2 : Matrix (Fin 64) (Fin 4) ℂ)
    (wavelength : ℚ) (phi : Matrix (Fin 64) (Fin 64) ℚ) :
    Fin 32 → Fin 32 → Fin 64 → ℝ :=
  fun i j p =>
    Complex.abs (∑ q : Fin 4, campBatched wavelength phi i j q * dft2 p q) ^ 2

/-- SHWFS state at the main-program configuration.  `pupil` is the sensor's
own field (line 153); `_im_subaps` and `_im_full` are the two cached views
(lines 160-161). -/
structure SHWFS where
  pupil : Matrix (Fin 64) (Fin 64) Bool
  wavelength : ℚ
  dft2 : Matrix (Fin 64) (Fin 4) ℂ
  im_subaps : Fin 1024 → Fin 8 → Fin 8 → ℝ
  im_full : Matrix (Fin 256) (Fin 256) ℝ

/-- `SHWFS.measure` (lines 195-221): recomputes both intensity views from
the phase map.  Batched view (line 216): entry `t` is subaperture
`(t / 32, t % 32)` and pixel `(u, v)` is flattened index `8u + v`.  Full
frame (lines 218-221): pixel `(r, c)` belongs to subaperture
`(r / 8, c / 8)` at inner position `(r % 8, c % 8)`. -/
noncomputable def SHWFS.measure (s : SHWFS)
    (phi : Matrix (Fin 64) (Fin 64) ℚ) : SHWFS :=
  { s with
    im_subaps := fun t u v =>
      imIntensity s.dft2 s.wavelength phi
        ⟨t.val / 32, by have h1 := t.isLt; omega⟩
        ⟨t.val % 32, Nat.mod_lt t.val (show 0 < 32 by decide)⟩
        ⟨8 * u.val + v.val, by have h1 := u.isLt; have h2 := v.isLt; omega⟩
    im_full := Matrix.of fun r c =>
      imIntensity s.dft2 s.wavelength phi
        ⟨r.val / 8, by have h1 := r.isLt; omega⟩
        ⟨c.val / 8, by have h1 := c.isLt; omega⟩
        ⟨8 * (r.val % 8) + c.val % 8, by
          have h1 := Nat.mod_lt r.val (show 0 < 8 by decide)
          have h2 := Nat.mod_lt c.val (show 0 < 8 by decide)
          omega⟩ }

/-! ## Helper lemmas -/

/-- Both evaluation strategies of the state matrix compute `A·x`. -/
theorem StateMatrix.dot_factored_eq {n k : ℕ} (S : StateMatrix n k)
    (x : Fin n → ℚ) : S.dot_factored x = S.A.mulVec x := by
  simp [StateMatrix.dot_factored, StateMatrix.A, Matrix.mulVec_mulVec]

/-- The selected strategy, whichever it is, computes `A·x`. -/
theorem StateMatrix.dot_eq {n k : ℕ} (S : StateMatrix n k) (b : Bool)
    (x : Fin n → ℚ) : S.dot b x = S.A.mulVec x := by
  cases b <;>
    simp [StateMatrix.dot, StateMatrix.dot_classic, StateMatrix.dot_factored_eq]

/-- The selected strategy on a batch computes `A · X`. -/
theorem StateMatrix.dot_mat_eq {n k m : ℕ} (S : StateMatrix n k) (b : Bool)
    (X : Matrix (Fin n) (Fin m) ℚ) : S.dot_mat b X = S.A * X := by
  cases b <;>
    simp [StateMatrix.dot_mat, StateMatrix.dot_classic_mat,
      StateMatrix.dot_factored_mat, StateMatrix.A, Matrix.mul_assoc]

/-- `step` commutes with overriding the benchmark outcome: the strategy
flag influences nothing but itself. -/
theorem PhaseScreen.step_useFactored {w n j k : ℕ} (s : PhaseScreen w n j k)
    (b : Bool) :
    PhaseScreen.step { s with useFactored := b }
      = { s.step with useFactored := b } := by
  simp only [PhaseScreen.step, StateMatrix.dot_eq]

/-- `stepN` commutes with overriding the benchmark outcome. -/
theorem PhaseScreen.stepN_useFactored {w n j k : ℕ} (m : ℕ)
    (s : PhaseScreen w n j k) (b : Bool) :
    PhaseScreen.stepN m { s with useFactored := b }
      = { PhaseScreen.stepN m s with useFactored := b } := by
  induction m with
  | zero => rfl
  | succ m ih => rw [PhaseScreen.stepN, PhaseScreen.stepN, ih,
      PhaseScreen.step_useFactored]

/-! ## Claims -/

/-- C1.  `step()` (lines 140-142) draws a standard-normal vector of
dimension `k` — the column count of `factor_vv` (the type of `drawNormal
s.rng s.pos k` is `Fin k → ℚ`, matching `factor_vv : Matrix (Fin n) (Fin k) ℚ`)
— and replaces the state with `A(x) + Fvv·v`; every other field of the
screen is unchanged, the draw advancing the stream cursor by exactly `k`.
The state stays in `Fin n → ℚ`, so its length is unchanged. -/
theorem phaseScreen_step_spec {w n j k : ℕ} (s : PhaseScreen w n j k) :
    s.step.x = s.state_matrix.A.mulVec s.x
        + s.factor_vv.mulVec (drawNormal s.rng s.pos k)
      ∧ s.step.pupil = s.pupil ∧ s.step.r0 = s.r0 ∧ s.step.L0 = s.L0
      ∧ s.step.diam = s.diam ∧ s.step.laminar = s.laminar
      ∧ s.step.wind = s.wind ∧ s.step.ittime = s.ittime
      ∧ s.step.pixsize = s.pixsize ∧ s.step.thresh = s.thresh
      ∧ s.step.xx_max = s.xx_max ∧ s.step.vv_max = s.vv_max
      ∧ s.step.factor_xx = s.factor_xx ∧ s.step.factor_vv = s.factor_vv
      ∧ s.step.state_matrix = s.state_matrix
      ∧ s.step.useFactored = s.useFactored ∧ s.step.seed = s.seed
      ∧ s.step.rng = s.rng ∧ s.step.pos = s.pos + k := by
  refine ⟨?_, rfl, rfl, rfl, rfl, rfl, rfl, rfl, rfl, rfl, rfl, rfl, rfl,
    rfl, rfl, rfl, rfl, rfl, rfl⟩
  simp [PhaseScreen.step, StateMatrix.dot_eq]

/-- C2.  The innovation covariance computed on line 116 by two nested
applications of the selected operator strategy and two transposes equals
`Σxx − A·Σxx·Aᵀ` for every symmetric `Σxx` and either strategy. -/
theorem sigma_vv_closed_form {n k : ℕ} (S : StateMatrix n k) (b : Bool)
    (sigma_xx : Matrix (Fin n) (Fin n) ℚ) (hsym : sigma_xxᵀ = sigma_xx) :
    sigma_vv S b sigma_xx = sigma_xx - S.A * sigma_xx * S.Aᵀ := by
  simp [sigma_vv, StateMatrix.dot_mat_eq, Matrix.transpose_mul,
    Matrix.transpose_transpose, Matrix.mul_assoc]

/-- Witness for C2 at the concrete symmetric input `Σxx = 1` and the
state matrix built from identity inputs. -/
theorem sigma_vv_closed_form_witness :
    ((1 : Matrix (Fin 1) (Fin 1) ℚ))ᵀ = 1
      ∧ sigma_vv (StateMatrix.build (n := 1) (k := 1) 1 1) true 1
          = 1 - (StateMatrix.build (n := 1) (k := 1) 1 1).A * 1
              * ((StateMatrix.build (n := 1) (k := 1) 1 1).A)ᵀ :=
  ⟨Matrix.transpose_one,
    sigma_vv_closed_form (StateMatrix.build (n := 1) (k := 1) 1 1) true 1
      Matrix.transpose_one⟩

/-- C3.  For a state matrix built from `(Σyx, Fxx⁻¹)`, the classic and
factored evaluations both return `A·x` on vectors, the selected strategy
does too, and on a batch the selected strategy returns `A·X`; in
particular the two strategies agree. -/
theorem stateMatrix_apply_agrees {n j m : ℕ}
    (cov_yx : Matrix (Fin n) (Fin n) ℚ)
    (inv_factor_xx : Matrix (Fin n) (Fin j) ℚ) (x : Fin n → ℚ)
    (X : Matrix (Fin n) (Fin m) ℚ) (b : Bool) :
    (StateMatrix.build cov_yx inv_factor_xx).dot_classic x
        = (StateMatrix.build cov_yx inv_factor_xx).A.mulVec x
      ∧ (StateMatrix.build cov_yx inv_factor_xx).dot_factored x
        = (StateMatrix.build cov_yx inv_factor_xx).A.mulVec x
      ∧ (StateMatrix.build cov_yx inv_factor_xx).dot_classic x
        = (StateMatrix.build cov_yx inv_factor_xx).dot_factored x
      ∧ (StateMatrix.build cov_yx inv_factor_xx).dot b x
        = (StateMatrix.build cov_yx inv_factor_xx).A.mulVec x
      ∧ (StateMatrix.build cov_yx inv_factor_xx).dot_mat b X
        = (StateMatrix.build cov_yx inv_factor_xx).A * X := by
  refine ⟨rfl, StateMatrix.dot_factored_eq _ x, ?_, StateMatrix.dot_eq _ b x,
    StateMatrix.dot_mat_eq _ b X⟩
  rw [StateMatrix.dot_factored_eq]
  rfl

/-- C8.  Two phase screens constructed from identical parameters, factors
and seeded stream — differing at most in the wall-clock benchmark's
strategy choice — hold identical state vectors after any number of
steps. -/
theorem phaseScreen_strategy_deterministic {w n j k : ℕ}
    (pupil : Matrix (Fin w) (Fin w) Bool) (r0 L0 diam laminar : ℚ)
    (wind : ℚ × ℚ) (ittime thresh : ℚ) (xx_max vv_max : Option ℕ) (seed : ℤ)
    (factor_xx : Matrix (Fin n) (Fin j) ℚ)
    (factor_vv : Matrix (Fin n) (Fin k) ℚ) (state_matrix : StateMatrix n j)
    (rng : ℕ → ℚ) (b₁ b₂ : Bool) (m : ℕ) :
    (PhaseScreen.stepN m
        (PhaseScreen.init pupil r0 L0 diam laminar wind ittime thresh
          xx_max vv_max seed factor_xx factor_vv state_matrix b₁ rng)).x
      = (PhaseScreen.stepN m
        (PhaseScreen.init pupil r0 L0 diam laminar wind ittime thresh
          xx_max vv_max seed factor_xx factor_vv state_matrix b₂ rng)).x := by
  have h : ∀ b : Bool,
      PhaseScreen.init pupil r0 L0 diam laminar wind ittime thresh
          xx_max vv_max seed factor_xx factor_vv state_matrix b rng
        = { PhaseScreen.init pupil r0 L0 diam laminar wind ittime thresh
              xx_max vv_max seed factor_xx factor_vv state_matrix false rng
            with useFactored := b } := fun b => rfl
  have e : ∀ b : Bool,
      (PhaseScreen.stepN m
          { PhaseScreen.init pupil r0 L0 diam laminar wind ittime thresh
              xx_max vv_max seed factor_xx factor_vv state_matrix false rng
            with useFactored := b }).x
        = (PhaseScreen.stepN m
            (PhaseScreen.init pupil r0 L0 diam laminar wind ittime thresh
              xx_max vv_max seed factor_xx factor_vv state_matrix false rng)).x :=
    fun b => by rw [PhaseScreen.stepN_useFactored]
  rw [h b₁, h b₂, e b₁, e b₂]

/-- The head of the ascending insertion sort is a lower bound of the input
list. -/
theorem insertionSort_head_le (vals : List ℚ) :
    ∀ v ∈ vals, (vals.insertionSort (fun a b => a ≤ b)).getD 0 0 ≤ v := by
  intro v hv
  have hmem : v ∈ vals.insertionSort (fun a b => a ≤ b) :=
    (List.perm_insertionSort _ vals).mem_iff.mpr hv
  have hsort := List.sorted_insertionSort (fun a b => a ≤ b) vals
  cases hsl : vals.insertionSort (fun a b => a ≤ b) with
  | nil => rw [hsl] at hmem; simp at hmem
  | cons a t =>
    rw [hsl] at hmem hsort
    rcases List.mem_cons.mp hmem with hva | hvt
    · simp [List.getD, hva]
    · simpa [List.getD] using (List.sorted_cons.mp hsort).1 v hvt

/-- C4 counterexample.  `_factorh` under the fixed-mode-count policy at the
symmetric input with eigenvalues `[-1, 2]` (as returned ascending by
`eigh`) and `n_modes = 2`: the negative eigenvalue `-1` is retained — line
133 keeps the top 2 eigenvalues regardless of sign — and line 136 then
computes `(-1)**0.5` (a silent NaN in numpy); the function is total and
returns this result rather than failing. -/
theorem factorh_modeCount_retains_negative :
    factorhRetained 0 (some 2) [-1, 2] = [-1, 2] ∧ (-1 : ℚ) < 0 := by
  constructor
  · decide
  · decide

/-- C4 amended.  Under the threshold policy (`n_modes is None`) with a
non-negative threshold — the default is `1e-5` — every retained eigenvalue
is strictly positive, so no negative eigenvalue reaches the square root;
the mode-count policy has no such protection (see the counterexample). -/
theorem factorh_threshold_rejects_nonpositive (thresh : ℚ) (vals : List ℚ)
    (h : 0 ≤ thresh) :
    ((factorhRetained thresh none vals).all (fun v => decide (0 < v))) = true := by
  rw [List.all_eq_true]
  intro v hv
  rw [factorhRetained] at hv
  rw [List.mem_filter] at hv
  exact decide_eq_true (lt_of_le_of_lt h (of_decide_eq_true hv.2))

/-- Witness for the amended C4 at the default-like threshold `0 ≤ 1` and
eigenvalues `[-1, 0, 2]`. -/
theorem factorh_threshold_rejects_nonpositive_witness :
    (0 : ℚ) ≤ 1
      ∧ ((factorhRetained 1 none [-1, 0, 2]).all (fun v => decide (0 < v))) = true :=
  ⟨by decide, factorh_threshold_rejects_nonpositive 1 [-1, 0, 2] (by decide)⟩

/-- A degenerate phase screen with zero retained modes, as silently
produced when the eigenvalue threshold excludes every mode: both factors
have zero columns and the initial draw is the empty product. -/
def emptyModeScreen : PhaseScreen 1 1 0 0 :=
  PhaseScreen.init (Matrix.of fun _ _ => true) 1 1 1 1 (1, 1) 1 1 none none 1
    (Matrix.of fun _ i => Fin.elim0 i) (Matrix.of fun _ i => Fin.elim0 i)
    ⟨Matrix.of fun _ i => Fin.elim0 i, Matrix.of fun i _ => Fin.elim0 i⟩
    false (fun _ => 1)

/-- C5 counterexample.  With threshold `1` and eigenvalues `[0, 1]` (all at
or below the threshold) `_factorh` retains nothing — the factor has zero
columns — and construction does not fail: the degenerate screen is a
perfectly well-formed value whose initial state is the zero vector. -/
theorem factorh_empty_factor_completes :
    factorhRetained 1 none [0, 1] = [] ∧ emptyModeScreen.x 0 = 0 := by
  constructor
  · decide
  · simp [emptyModeScreen, PhaseScreen.init, Matrix.mulVec, dotProduct]

/-- C5 amended.  Construction performs no fail-fast validation of the
truncation policy: a threshold at or above every eigenvalue makes
`_factorh` return an empty (zero-column) factor and construction completes
silently with a degenerate operator, while a mode count of `0` — through
Python's `argsort()[-0] = argsort()[0]` indexing — retains every
eigenvalue instead of zero of them. -/
theorem factorh_degenerate_policies (thresh : ℚ) (vals : List ℚ)
    (h : ∀ v ∈ vals, v ≤ thresh) :
    factorhRetained thresh none vals = []
      ∧ factorhRetained thresh (some 0) vals = vals := by
  constructor
  · rw [factorhRetained, List.filter_eq_nil_iff]
    intro v hv
    simp only [decide_eq_true_eq, not_lt]
    exact h v hv
  · rw [factorhRetained, List.filter_eq_self]
    intro v hv
    simp only [factorhCutoff, if_pos rfl, decide_eq_true_eq]
    exact insertionSort_head_le vals v hv

/-- Witness for the amended C5 at threshold `1` and eigenvalues `[0, 1]`. -/
theorem factorh_degenerate_policies_witness :
    (∀ v ∈ [(0 : ℚ), 1], v ≤ 1)
      ∧ (factorhRetained 1 none [0, 1] = []
          ∧ factorhRetained 1 (some 0) [0, 1] = [0, 1]) :=
  ⟨by decide, factorh_degenerate_policies 1 [0, 1] (by decide)⟩

/-- `cogOne` in closed form: the thresholded image is centroided by the
plain intensity-weighted average (the all-ones `r_mat` drops out of the
einsum), and a zero-flux image yields the flagged `none`. -/
theorem cogOne_eq (npix : ℕ) (thresh : Option ℚ) (img : List ℚ) :
    cogOne npix thresh img
      = (if (applyThresh thresh img).sum = 0 then none
         else some (plainCentroid (xCoord npix) (applyThresh thresh img),
            plainCentroid (yCoord npix) (applyThresh thresh img))) := by
  simp [cogOne, plainCentroid, cogNum, rMat]

/-- C6.  `cog` returns a result for every batch entry (the output has the
batch's length); the entry at index `i` depends only on the `i`-th image:
it is the flagged `none` exactly when that image's thresholded flux is
zero (numpy's non-finite `num/0`), and otherwise it is the ordinary
intensity-weighted average of that image, unaffected by degenerate
entries elsewhere in the batch. -/
theorem cog_zero_flux_flagged (c : ClassicCog) (batch : List (List ℚ)) (i : ℕ)
    (h : i < batch.length) :
    (c.cogBatch batch).length = batch.length
      ∧ (c.cogBatch batch).getD i none
          = (if (applyThresh c.thresh (batch.getD i [])).sum = 0 then none
             else some
                (plainCentroid (xCoord c.npix) (applyThresh c.thresh (batch.getD i [])),
                 plainCentroid (yCoord c.npix) (applyThresh c.thresh (batch.getD i [])))) := by
  refine ⟨List.length_map batch _, ?_⟩
  rw [← cogOne_eq]
  rw [ClassicCog.cogBatch]
  rw [List.getD_eq_getElem?_getD, List.getElem?_map]
  rw [List.getElem?_eq_getElem h]
  rw [List.getD_eq_getElem?_getD, List.getElem?_eq_getElem h]
  rfl

/-- Witness for C6 on the batch `[[0,0,0,0],[0,0,2,0]]` with the default
threshold: index `0` is in range. -/
theorem cog_zero_flux_flagged_witness :
    (0 : ℕ) < ([[0, 0, 0, 0], [0, 0, 2, 0]] : List (List ℚ)).length
      ∧ ((({ npix := 2 } : ClassicCog).cogBatch [[0, 0, 0, 0], [0, 0, 2, 0]]).length
            = ([[0, 0, 0, 0], [0, 0, 2, 0]] : List (List ℚ)).length
          ∧ (({ npix := 2 } : ClassicCog).cogBatch [[0, 0, 0, 0], [0, 0, 2, 0]]).getD 0 none
              = (if (applyThresh ({ npix := 2 } : ClassicCog).thresh
                      (([[0, 0, 0, 0], [0, 0, 2, 0]] : List (List ℚ)).getD 0 [])).sum = 0
                 then none
                 else some
                    (plainCentroid (xCoord ({ npix := 2 } : ClassicCog).npix)
                      (applyThresh ({ npix := 2 } : ClassicCog).thresh
                        (([[0, 0, 0, 0], [0, 0, 2, 0]] : List (List ℚ)).getD 0 [])),
                     plainCentroid (yCoord ({ npix := 2 } : ClassicCog).npix)
                      (applyThresh ({ npix := 2 } : ClassicCog).thresh
                        (([[0, 0, 0, 0], [0, 0, 2, 0]] : List (List ℚ)).getD 0 []))))) :=
  ⟨by decide, cog_zero_flux_flagged { npix := 2 } [[0, 0, 0, 0], [0, 0, 2, 0]] 0 (by decide)⟩

/-- C9.  A single 2-dimensional image is promoted to a batch of one
(`intensity[None,...]`, lines 270-271) and the result keeps the batch
axis: `cog` returns the length-one list of per-image centroid pairs — the
`(1, 2)`-shaped output — not a bare pair. -/
theorem cog_single_image_batched (c : ClassicCog) (img : List ℚ) :
    c.cog (Sum.inl img) = [cogOne c.npix c.thresh img]
      ∧ (c.cog (Sum.inl img)).length = 1
      ∧ c.cog (Sum.inl img) = c.cogBatch [img] :=
  ⟨rfl, rfl, rfl⟩

/-- C10.  The background threshold defaults to `some 0`, not to `none`
(line 241); with any set threshold `t` the preprocessing of lines 272-274
maps each pixel to `max (p - t) 0` — for the default that is `max p 0`, so
negative intensities never contribute — and only `thresh=None` skips the
subtract-and-clamp branch entirely. -/
theorem cog_default_thresh_clamps (n : ℕ) (t : ℚ) (img : List ℚ) :
    ({ npix := n } : ClassicCog).thresh = some 0
      ∧ applyThresh (some t) img = img.map (fun p => max (p - t) 0)
      ∧ applyThresh (some 0) img = img.map (fun p => max p 0)
      ∧ applyThresh none img = img := by
  have hp : ∀ (u p : ℚ), (if p - u < 0 then 0 else p - u) = max (p - u) 0 := by
    intro u p
    by_cases h1 : p - u < 0
    · simp [h1, max_eq_right h1.le]
    · rw [if_neg h1, max_eq_left (not_lt.mp h1)]
  have hp0 : ∀ p : ℚ, (if p < 0 then 0 else p) = max p 0 := fun p => by
    simpa using hp 0 p
  refine ⟨rfl, ?_, ?_, rfl⟩
  · simp only [applyThresh, hp t]
  · simp only [applyThresh, sub_zero, hp0]

/-- C7.  `measure` masks the phase exponential with the module-global
`pupil` of the `__main__` block (line 203), not with the sensor's own
`pupil` field: the two recomputed views agree in full for any two sensors
sharing a kernel and wavelength, whatever their `pupil` fields and
whatever the previously cached views — demonstrating both that the
sensor's own mask is ignored (the divergence from the claim) and that the
views are recomputed from scratch each call. -/
theorem measure_ignores_pupil_field (p₁ p₂ : Matrix (Fin 64) (Fin 64) Bool)
    (wl : ℚ) (d : Matrix (Fin 64) (Fin 4) ℂ)
    (v₁ v₂ : Fin 1024 → Fin 8 → Fin 8 → ℝ)
    (f₁ f₂ : Matrix (Fin 256) (Fin 256) ℝ)
    (phi : Matrix (Fin 64) (Fin 64) ℚ) :
    (SHWFS.measure ⟨p₁, wl, d, v₁, f₁⟩ phi).im_subaps
        = (SHWFS.measure ⟨p₂, wl, d, v₂, f₂⟩ phi).im_subaps
      ∧ (SHWFS.measure ⟨p₁, wl, d, v₁, f₁⟩ phi).im_full
        = (SHWFS.measure ⟨p₂, wl, d, v₂, f₂⟩ phi).im_full :=
  ⟨rfl, rfl⟩

end ReconSimu
